import Mathlib

/-!
Verification of the chat orchestration core of `private_gpt/ui/ui.py`
(class `PrivateGptUi`): the history compactor (`build_history`), the
source curator (`Source.curate_sources`), the response streamer
(`yield_deltas`) and the three-way mode dispatch of `_chat`.

The Python code is shallowly embedded: strings are Lean `String`s,
Python dicts become association lists (first binding wins, as dict keys
are unique), the `Iterable` of snapshots produced by the generator
becomes a `List String`, calls to the external collaborators
(ingest service, chat service, chunks service) are recorded in a call
trace, and a Python exception (`TypeError` / `KeyError` from
subscripting) becomes `Except.error`.
-/

namespace PrivateGpt

/-- `SOURCES_SEPARATOR` constant from `ui.py`. -/
def SOURCES_SEPARATOR : String := "\n\n Sources: \n"

/-- Roles of `llama_index.core.llms.MessageRole` used by `ui.py`. -/
inductive MessageRole where
  | system
  | user
  | assistant
deriving DecidableEq

/-- `llama_index.core.llms.ChatMessage` as used by `ui.py`: content plus role. -/
structure ChatMessage where
  content : String
  role : MessageRole
deriving DecidableEq

/-- A Python dict of strings, embedded as an association list whose keys are
unique; lookup returns the first binding. -/
def dictFind (md : List (String × String)) (k : String) : Option String :=
  match md.find? (fun p => p.1 == k) with
  | some p => some p.2
  | none => none

/-- Python `dict.get(k, default)`. -/
def dictGet (md : List (String × String)) (k d : String) : String :=
  match dictFind md k with
  | some v => v
  | none => d

/-- An ingested document as returned by `ingest_service.list_ingested()`:
a `doc_id` and an optional metadata dict. -/
structure IngestedDocument where
  doc_id : String
  doc_metadata : Option (List (String × String))
deriving DecidableEq

/-- A retrieved `Chunk`: its owning document and the passage text. -/
structure Chunk where
  document : IngestedDocument
  text : String
deriving DecidableEq

/-- The `Source` pydantic model of `ui.py`: file, page, text.  It is frozen,
so Python equality/hashing compares all three fields. -/
structure Source where
  file : String
  page : String
  text : String
deriving DecidableEq

/-- The body of the loop in `Source.curate_sources` building one `Source`
from a chunk: metadata keys `file_name` / `page_label`, sentinel `"-"` when
the metadata dict is `None` or lacks the key. -/
def chunkToSource (chunk : Chunk) : Source :=
  let file_name :=
    match chunk.document.doc_metadata with
    | some md => dictGet md "file_name" "-"
    | none => "-"
  let page_label :=
    match chunk.document.doc_metadata with
    | some md => dictGet md "page_label" "-"
    | none => "-"
  ⟨file_name, page_label, chunk.text⟩

/-- Python `list(dict.fromkeys(l).keys())`: drop duplicates, keeping the
first occurrence of each element, preserving order.  `seen` is the set of
keys already inserted. -/
def dedupFirst (seen : List Source) : List Source → List Source
  | [] => []
  | s :: rest =>
      if s ∈ seen then dedupFirst seen rest
      else s :: dedupFirst (s :: seen) rest

/-- One iteration of the loop in `Source.curate_sources`: append the built
`Source`, then re-deduplicate the accumulated list via
`list(dict.fromkeys(curated_sources).keys())` (inside the loop, as in the
source). -/
def curateStep (curated : List Source) (chunk : Chunk) : List Source :=
  dedupFirst [] (curated ++ [chunkToSource chunk])

/-- `Source.curate_sources` from `ui.py`: the loop over the chunks. -/
def curate_sources (sources : List Chunk) : List Source :=
  sources.foldl curateStep []

/-- Python `s.split(sep)[0]` on character lists (for a non-empty separator):
the prefix of `s` strictly before the first occurrence of `sep`, or all of
`s` when `sep` does not occur. -/
def splitHead (sep : List Char) : List Char → List Char
  | [] => []
  | c :: cs =>
      if sep.isPrefixOf (c :: cs) then []
      else c :: splitHead sep cs

/-- `interaction[1].split(SOURCES_SEPARATOR)[0]` from `build_history`:
remove the Sources block from an assistant text. -/
def stripSources (s : String) : String :=
  String.mk (splitHead SOURCES_SEPARATOR.toList s.toList)

/-- The per-turn message pairs built inside `build_history`
(`itertools.chain` over `[user message, assistant message with Sources
stripped]` for each interaction). -/
def turnMessages : List (String × String) → List ChatMessage
  | [] => []
  | interaction :: rest =>
      ⟨interaction.1, MessageRole.user⟩ ::
      ⟨stripSources interaction.2, MessageRole.assistant⟩ ::
      turnMessages rest

/-- `build_history` from `_chat`: the chained turn messages truncated by
`history_messages[:20]`. -/
def build_history (history : List (String × String)) : List ChatMessage :=
  (turnMessages history).take 20

/-- `all_messages` as assembled in `_chat`: `[*build_history(), new_message]`
with the system prompt inserted at position 0 when it is truthy (non-empty). -/
def compactAll (system_prompt : String) (history : List (String × String))
    (message : String) : List ChatMessage :=
  let all_messages := build_history history ++ [⟨message, MessageRole.user⟩]
  if system_prompt = "" then all_messages
  else ⟨system_prompt, MessageRole.system⟩ :: all_messages

/-- One element of the `completion_gen.response` stream: either a plain
string delta or a `ChatResponse` whose `.delta` may be `None`. -/
inductive Delta where
  | str : String → Delta
  | chatResponse : Option String → Delta
deriving DecidableEq

/-- The text appended to `full_response` for one delta
(`delta.delta or ""` for a `ChatResponse`). -/
def deltaText : Delta → String
  | .str s => s
  | .chatResponse o => o.getD ""

/-- `CompletionGen` as consumed by `yield_deltas`: the finite stream of
deltas and the sources available once the stream is exhausted. -/
structure CompletionGen where
  response : List Delta
  sources : List Chunk
deriving DecidableEq

/-- The snapshots yielded inside the `for delta in stream` loop of
`yield_deltas`, starting from accumulated text `acc`. -/
def streamSnapshots (acc : String) : List Delta → List String
  | [] => []
  | d :: rest => (acc ++ deltaText d) :: streamSnapshots (acc ++ deltaText d) rest

/-- The value of `full_response` after the stream loop, starting from `acc`. -/
def fullFrom (acc : String) : List Delta → String
  | [] => acc
  | d :: rest => fullFrom (acc ++ deltaText d) rest

/-- The `sources_text` lines of `yield_deltas`: enumerate curated sources
from index 1, emitting a line for each not-yet-used `"{file}-{page}"` key
(the index advances even on skipped entries, as in the source). -/
def sourcesLines (idx : Nat) (used : List String) : List Source → String
  | [] => ""
  | s :: rest =>
      let key := s.file ++ "-" ++ s.page
      if key ∈ used then sourcesLines (idx + 1) used rest
      else (toString idx ++ ". " ++ s.file ++ " (page " ++ s.page ++ ") \n\n")
           ++ sourcesLines (idx + 1) (key :: used) rest

/-- The full `sources_text` of `yield_deltas` (initialised to `"\n\n\n"`). -/
def sourcesBlockText (sources : List Chunk) : String :=
  "\n\n\n" ++ sourcesLines 1 [] (curate_sources sources)

/-- The final value of `full_response` yielded after the loop: unchanged if
`completion_gen.sources` is falsy, otherwise extended by the separator and
the sources text. -/
def finalResponse (acc : String) (sources : List Chunk) : String :=
  if sources.isEmpty then acc
  else acc ++ SOURCES_SEPARATOR ++ sourcesBlockText sources

/-- The whole snapshot sequence produced by `yield_deltas`: one snapshot per
delta, then the unconditional final `yield full_response`. -/
def yield_deltas (g : CompletionGen) : List String :=
  streamSnapshots "" g.response ++ [finalResponse (fullFrom "" g.response) g.sources]

/-- `ContextFilter(docs_ids=...)` from `_chat`. -/
structure ContextFilter where
  docs_ids : List String
deriving DecidableEq

/-- A call made by `_chat` to one of its collaborators. -/
inductive CollaboratorCall where
  | listIngested : CollaboratorCall
  | streamChat : List ChatMessage → Bool → Option ContextFilter → CollaboratorCall
  | retrieveRelevant : String → Nat → Nat → CollaboratorCall
deriving DecidableEq

/-- Whether a collaborator call is `chunks_service.retrieve_relevant`. -/
def isRetrieveCall : CollaboratorCall → Bool
  | .retrieveRelevant _ _ _ => true
  | _ => false

/-- The fields of `PrivateGptUi` read by `_chat`: the active mode, the
system prompt (`""` embeds Python falsy `None`/empty) and the selected
file name. -/
structure SessionState where
  mode : String
  system_prompt : String
  selected_filename : Option String
deriving DecidableEq

/-- The behaviour of the external collaborators during one `_chat`
invocation: the ingested document list, the completion streams returned by
`chat_service.stream_chat` in the two generation modes, and the chunks
returned by `chunks_service.retrieve_relevant`. -/
structure ChatEnv where
  ingestedDocs : List IngestedDocument
  queryGen : CompletionGen
  llmGen : CompletionGen
  searchChunks : List Chunk

/-- `ingested_document.doc_metadata["file_name"]`: a `TypeError` when the
metadata is `None`, a `KeyError` when the key is absent. -/
def docFileName (d : IngestedDocument) : Except String String :=
  match d.doc_metadata with
  | none => .error "TypeError: NoneType object is not subscriptable"
  | some md =>
      match dictFind md "file_name" with
      | some fn => .ok fn
      | none => .error "KeyError: file_name"

/-- One iteration of the `docs_ids` loop of the `"Query Files"` branch of
`_chat`: if the invocation already raised, the exception stands; otherwise
subscript `doc_metadata["file_name"]` (unguarded) and append `doc_id` on a
match with the selected file name. -/
def resolveStep (sel : String) (acc : Except String (List String))
    (d : IngestedDocument) : Except String (List String) := do
  let ids ← acc
  let fn ← docFileName d
  pure (if fn == sel then ids ++ [d.doc_id] else ids)

/-- The `docs_ids` loop of the `"Query Files"` branch of `_chat`: collect
`doc_id` of every ingested document whose `doc_metadata["file_name"]`
equals the selected file name; the subscript has no guard, so a document
with bad metadata raises. -/
def resolveDocsIds (docs : List IngestedDocument) (sel : String) :
    Except String (List String) :=
  docs.foldl (resolveStep sel) (.ok [])

/-- One rendered entry of the `"Search Files"` branch:
`f"{index}. **{source.file} (page {source.page})**\n {source.text}"`. -/
def searchLines (idx : Nat) : List Source → List String
  | [] => []
  | s :: rest =>
      (toString idx ++ ". **" ++ s.file ++ " (page " ++ s.page ++ ")**\n " ++ s.text)
      :: searchLines (idx + 1) rest

/-- The single snapshot yielded in `"Search Files"` mode. -/
def searchRender (sources : List Source) : String :=
  String.intercalate "\n\n\n" (searchLines 1 sources)

/-- The result of one `_chat` invocation: the yielded snapshots and the
collaborator call trace, or the propagated exception. -/
def chatResult (st : SessionState) (env : ChatEnv) (message : String)
    (history : List (String × String)) (mode : String) :
    Except String (List String × List CollaboratorCall) :=
  let all_messages := compactAll st.system_prompt history message
  if mode = "Query Files" then
    match st.selected_filename with
    | none =>
        .ok (yield_deltas env.queryGen,
             [.streamChat all_messages true none])
    | some sel =>
        match resolveDocsIds env.ingestedDocs sel with
        | .error e => .error e
        | .ok docs_ids =>
            .ok (yield_deltas env.queryGen,
                 [.listIngested,
                  .streamChat all_messages true (some ⟨docs_ids⟩)])
  else if mode = "LLM Chat (no context from files)" then
    .ok (yield_deltas env.llmGen,
         [.streamChat all_messages false none])
  else if mode = "Search Files" then
    .ok ([searchRender (curate_sources env.searchChunks)],
         [.retrieveRelevant message 4 0])
  else
    .ok ([], [])

/-- `_chat` as a state-passing operation: it only reads the session fields,
so the outgoing state is the incoming one. -/
def chatStep (st : SessionState) (env : ChatEnv) (message : String)
    (history : List (String × String)) (mode : String) :
    Except String (List String × List CollaboratorCall) × SessionState :=
  (chatResult st env message history mode, st)

/-- The call trace of a chat outcome (empty when the invocation raised). -/
def callsOf : Except String (List String × List CollaboratorCall) →
    List CollaboratorCall
  | .ok (_, calls) => calls
  | .error _ => []

/-- Re-pair a message sequence produced by the history compactor into a raw
turn history (user text, assistant text), as the UI stores it, so the
compactor can be fed its own output. -/
def toTurns : List ChatMessage → List (String × String)
  | u :: a :: rest => (u.content, a.content) :: toTurns rest
  | _ => []

/-- `b` extends `a` on the right: the snapshot `b` is a prefix-extension of
(or equal to) the snapshot `a`. -/
def strExt (a b : String) : Prop := ∃ t : String, b = a ++ t

/-- `_list_ingested_files` from `ui.py`: skip documents whose metadata is
`None`, read `file_name` with sentinel default `"[FILE NAME MISSING]"`,
collect into a set (embedded as a first-occurrence deduplicated list). -/
def listIngestedFiles (docs : List IngestedDocument) : List String :=
  (docs.foldl
    (fun files d =>
      match d.doc_metadata with
      | none => files
      | some md => files ++ [dictGet md "file_name" "[FILE NAME MISSING]"])
    []).eraseDups

/-! ### Lemmas about `splitHead` and `stripSources` -/

theorem splitHead_front (sep : List Char) (s : List Char) : splitHead sep s <+: s := by
  induction s with
  | nil => simp [splitHead]
  | cons c cs ih =>
      rw [splitHead]
      cases hp : sep.isPrefixOf (c :: cs) with
      | true => simp
      | false =>
          simp only [Bool.false_eq_true, if_false]
          obtain ⟨t, ht⟩ := ih
          exact ⟨t, by rw [List.cons_append, ht]⟩

theorem splitHead_idem (sep : List Char) (s : List Char) :
    splitHead sep (splitHead sep s) = splitHead sep s := by
  induction s with
  | nil => simp [splitHead]
  | cons c cs ih =>
      rw [splitHead]
      cases hp : sep.isPrefixOf (c :: cs) with
      | true => simp [splitHead]
      | false =>
          simp only [Bool.false_eq_true, if_false]
          have hsub : c :: splitHead sep cs <+: c :: cs := by
            obtain ⟨t, ht⟩ := splitHead_front sep cs
            exact ⟨t, by rw [List.cons_append, ht]⟩
          have hfalse : sep.isPrefixOf (c :: splitHead sep cs) = false := by
            cases hq : sep.isPrefixOf (c :: splitHead sep cs) with
            | false => rfl
            | true =>
                have h1 : sep <+: c :: splitHead sep cs :=
                  Iff.mp List.isPrefixOf_iff_prefix hq
                have h3 : sep.isPrefixOf (c :: cs) = true :=
                  Iff.mpr List.isPrefixOf_iff_prefix (h1.trans hsub)
                rw [hp] at h3
                exact absurd h3 (by simp)
          rw [splitHead, hfalse]
          simp [ih]

theorem stripSources_idem (s : String) :
    stripSources (stripSources s) = stripSources s := by
  unfold stripSources
  have hmk : (String.mk (splitHead SOURCES_SEPARATOR.toList s.toList)).toList =
      splitHead SOURCES_SEPARATOR.toList s.toList := rfl
  rw [hmk, splitHead_idem]

/-! ### Lemmas about the history compactor -/

theorem turnMessages_length (h : List (String × String)) :
    (turnMessages h).length = 2 * h.length := by
  induction h with
  | nil => rfl
  | cons i rest ih =>
      simp only [turnMessages, List.length_cons, ih]
      omega

theorem turnMessages_take (h : List (String × String)) :
    ∀ k : Nat, (turnMessages h).take (2 * k) = turnMessages (h.take k) := by
  induction h with
  | nil => intro k; simp [turnMessages]
  | cons i rest ih =>
      intro k
      cases k with
      | zero => simp [turnMessages]
      | succ k =>
          have h2 : 2 * (k + 1) = 2 * k + 1 + 1 := by omega
          rw [h2]
          simp only [turnMessages, List.take_succ_cons, ih]

theorem toTurns_turnMessages (h : List (String × String)) :
    toTurns (turnMessages h) = h.map (fun i => (i.1, stripSources i.2)) := by
  induction h with
  | nil => rfl
  | cons i rest ih => simp only [turnMessages, toTurns, ih, List.map_cons]

theorem turnMessages_strip (h : List (String × String)) :
    turnMessages (h.map (fun i => (i.1, stripSources i.2))) = turnMessages h := by
  induction h with
  | nil => rfl
  | cons i rest ih =>
      simp only [turnMessages, List.map_cons, ih, stripSources_idem]

theorem build_history_take_ten (h : List (String × String)) :
    build_history h = turnMessages (h.take 10) := by
  rw [build_history, show (20 : Nat) = 2 * 10 from rfl, turnMessages_take]

/-- A concrete raw history of 11 turns: 22 turn-derived messages. -/
def historyElevenTurns : List (String × String) :=
  [("u0", "a0"), ("u1", "a1"), ("u2", "a2"), ("u3", "a3"), ("u4", "a4"),
   ("u5", "a5"), ("u6", "a6"), ("u7", "a7"), ("u8", "a8"), ("u9", "a9"),
   ("u10", "a10")]

/-- C1 fails on the code: for the 11-turn history (22 turn-derived
messages), `build_history` does not return the most recent 20 messages
(`drop (length - 20)`); it keeps the oldest 20 instead. -/
theorem claim_c1_counterexample :
    (turnMessages historyElevenTurns).length = 22 ∧
    build_history historyElevenTurns ≠
      (turnMessages historyElevenTurns).drop
        ((turnMessages historyElevenTurns).length - 20) := by
  constructor
  · decide
  · decide

/-- C1 (amended): for every raw history whose turn-derived message sequence
is longer than 20 messages, `build_history` returns exactly 20 messages
consisting of the OLDEST 20 turn-derived messages in their original
chronological order (a prefix of the turn-derived sequence; the most recent
messages are dropped). -/
theorem claim_c1_oldest_kept (h : List (String × String))
    (hlen : 20 < (turnMessages h).length) :
    (build_history h).length = 20 ∧ build_history h <+: turnMessages h := by
  constructor
  · rw [build_history, List.length_take]
    omega
  · rw [build_history]
    exact List.take_prefix 20 (turnMessages h)

/-- Witness for C1 (amended) at the concrete 11-turn history. -/
theorem claim_c1_oldest_kept_witness :
    20 < (turnMessages historyElevenTurns).length ∧
    ((build_history historyElevenTurns).length = 20 ∧
      build_history historyElevenTurns <+: turnMessages historyElevenTurns) :=
  ⟨by decide, claim_c1_oldest_kept historyElevenTurns (by decide)⟩

/-- C5: the history compactor is idempotent — re-pairing the compacted
output into turns and compacting again yields an identical result
(stripping on the separator and truncating to 20 are both idempotent on the
compactor's own output). -/
theorem claim_c5_compactor_idempotent (h : List (String × String)) :
    build_history (toTurns (build_history h)) = build_history h := by
  rw [build_history_take_ten h, toTurns_turnMessages, build_history_take_ten]
  have e2 : ((h.take 10).map (fun i => (i.1, stripSources i.2))).take 10
      = (h.take 10).map (fun i => (i.1, stripSources i.2)) := by
    apply List.take_of_length_le
    simp
  rw [e2, turnMessages_strip]

/-! ### The concrete scenario of C3 -/

/-- Collaborator behaviour for the C3 scenario: nothing ingested, empty
completion streams, no chunks. -/
def c3Env : ChatEnv := ⟨[], ⟨[], []⟩, ⟨[], []⟩, []⟩

/-- C3 fails on the code: the scenario's assistant text
`"Hello! Sources: \n\n\n1. a.pdf (page 1)"` does not contain
`SOURCES_SEPARATOR` (`"\n\n Sources: \n"`), so nothing is stripped and the
compactor output is not `[user "Hi", assistant "Hello!", user "Tell me
more"]`. -/
theorem claim_c3_counterexample :
    compactAll "" [("Hi", "Hello! Sources: \n\n\n1. a.pdf (page 1)")] "Tell me more" ≠
      [⟨"Hi", MessageRole.user⟩, ⟨"Hello!", MessageRole.assistant⟩,
       ⟨"Tell me more", MessageRole.user⟩] := by
  decide

/-- C3 (amended): for the input history whose assistant text carries an
actual citation block introduced by the separator,
`[("Hi", "Hello!" ++ SOURCES_SEPARATOR ++ "\n\n\n1. a.pdf (page 1) \n\n")]`,
with new message `"Tell me more"`, mode `"Query Files"`, no document
selected and no system prompt set, the compactor produces exactly
`[user "Hi", assistant "Hello!", user "Tell me more"]` (the trailing
citation block is removed by splitting on the first occurrence of the
separator marker and keeping only the prefix), and the chat invocation
passes exactly these messages to generation with no scope filter. -/
theorem claim_c3_scenario :
    compactAll ""
        [("Hi", "Hello!" ++ SOURCES_SEPARATOR ++ "\n\n\n1. a.pdf (page 1) \n\n")]
        "Tell me more" =
      [⟨"Hi", MessageRole.user⟩, ⟨"Hello!", MessageRole.assistant⟩,
       ⟨"Tell me more", MessageRole.user⟩] ∧
    (chatStep ⟨"Query Files", "", none⟩ c3Env "Tell me more"
        [("Hi", "Hello!" ++ SOURCES_SEPARATOR ++ "\n\n\n1. a.pdf (page 1) \n\n")]
        "Query Files").1 =
      .ok (yield_deltas c3Env.queryGen,
           [.streamChat
              [⟨"Hi", MessageRole.user⟩, ⟨"Hello!", MessageRole.assistant⟩,
               ⟨"Tell me more", MessageRole.user⟩] true none]) := by
  constructor
  · decide
  · rfl

/-! ### Lemmas about `dedupFirst` and the source curator -/

theorem mem_dedupFirst (x : Source) (l : List Source) :
    ∀ seen : List Source, x ∈ dedupFirst seen l ↔ x ∈ l ∧ x ∉ seen := by
  induction l with
  | nil => intro seen; simp [dedupFirst]
  | cons s rest ih =>
      intro seen
      rw [dedupFirst]
      by_cases hs : s ∈ seen
      · rw [if_pos hs, ih]
        constructor
        · rintro ⟨hx, hn⟩
          exact ⟨List.mem_cons_of_mem _ hx, hn⟩
        · rintro ⟨hx, hn⟩
          rcases List.mem_cons.mp hx with rfl | hx'
          · exact absurd hs hn
          · exact ⟨hx', hn⟩
      · rw [if_neg hs]
        simp only [List.mem_cons, ih, List.mem_cons]
        constructor
        · rintro (rfl | ⟨hx, hn⟩)
          · exact ⟨Or.inl rfl, hs⟩
          · refine ⟨Or.inr hx, fun hseen => hn (Or.inr hseen)⟩
        · rintro ⟨rfl | hx, hn⟩
          · exact Or.inl rfl
          · by_cases hxs : x = s
            · exact Or.inl hxs
            · exact Or.inr ⟨hx, fun hh => (hh.elim hxs hn)⟩

theorem dedupFirst_nodup (l : List Source) :
    ∀ seen : List Source, (dedupFirst seen l).Nodup := by
  induction l with
  | nil => intro seen; simp [dedupFirst]
  | cons s rest ih =>
      intro seen
      rw [dedupFirst]
      by_cases hs : s ∈ seen
      · rw [if_pos hs]; exact ih seen
      · rw [if_neg hs]
        refine List.nodup_cons.mpr ⟨?_, ih (s :: seen)⟩
        rw [mem_dedupFirst]
        rintro ⟨-, hn⟩
        exact hn (List.mem_cons_self s seen)

theorem dedupFirst_keep (D : List Source) :
    ∀ seen : List Source, D.Nodup → (∀ x ∈ D, x ∉ seen) → ∀ s : Source,
      dedupFirst seen (D ++ [s]) =
        D ++ (if s ∈ seen ∨ s ∈ D then [] else [s]) := by
  induction D with
  | nil =>
      intro seen _ _ s
      by_cases hs : s ∈ seen <;> simp [dedupFirst, hs]
  | cons a D ih =>
      intro seen hD hDs s
      have ha : a ∉ seen := hDs a (List.mem_cons_self a D)
      rw [List.cons_append, dedupFirst, if_neg ha]
      have hD' : D.Nodup := (List.nodup_cons.mp hD).2
      have haD : a ∉ D := (List.nodup_cons.mp hD).1
      have hDs' : ∀ x ∈ D, x ∉ a :: seen := by
        intro x hx
        rw [List.mem_cons]
        rintro (rfl | hxs)
        · exact haD hx
        · exact hDs x (List.mem_cons_of_mem _ hx) hxs
      rw [ih (a :: seen) hD' hDs' s]
      have hcond : (s ∈ a :: seen ∨ s ∈ D) ↔ (s ∈ seen ∨ s ∈ a :: D) := by
        simp only [List.mem_cons]
        tauto
      by_cases hc : s ∈ seen ∨ s ∈ a :: D
      · rw [if_pos (hcond.mpr hc), if_pos hc]
        simp
      · rw [if_neg (fun hh => hc (hcond.mp hh)), if_neg hc]
        simp

theorem curate_fold_inv (cs : List Chunk) :
    ∀ acc : List Source, acc.Nodup →
      (cs.foldl curateStep acc).Nodup ∧
      (∀ x : Source, x ∈ cs.foldl curateStep acc ↔
        x ∈ acc ∨ x ∈ cs.map chunkToSource) ∧
      List.Sublist (cs.foldl curateStep acc) (acc ++ cs.map chunkToSource) := by
  induction cs with
  | nil =>
      intro acc hacc
      refine ⟨hacc, ?_, ?_⟩
      · intro x; simp
      · simp
  | cons c cs ih =>
      intro acc hacc
      rw [List.foldl_cons]
      have hstep : curateStep acc c =
          acc ++ (if chunkToSource c ∈ acc then [] else [chunkToSource c]) := by
        rw [curateStep, dedupFirst_keep acc [] hacc (by simp) (chunkToSource c)]
        simp
      by_cases hc : chunkToSource c ∈ acc
      · rw [hstep, if_pos hc, List.append_nil]
        obtain ⟨h1, h2, h3⟩ := ih acc hacc
        refine ⟨h1, ?_, ?_⟩
        · intro x
          rw [h2]
          simp only [List.map_cons, List.mem_cons]
          constructor
          · rintro (hx | hx)
            · exact Or.inl hx
            · exact Or.inr (Or.inr hx)
          · rintro (hx | rfl | hx)
            · exact Or.inl hx
            · exact Or.inl hc
            · exact Or.inr hx
        · refine h3.trans ?_
          rw [List.map_cons]
          exact List.Sublist.append_left (List.sublist_cons_self _ _) acc
      · rw [hstep, if_neg hc]
        have hacc' : (acc ++ [chunkToSource c]).Nodup := by
          simp [List.nodup_append, hacc, hc]
        obtain ⟨h1, h2, h3⟩ := ih (acc ++ [chunkToSource c]) hacc'
        refine ⟨h1, ?_, ?_⟩
        · intro x
          rw [h2]
          simp only [List.mem_append, List.mem_singleton, List.map_cons,
            List.mem_cons]
          tauto
        · refine h3.trans ?_
          rw [List.map_cons, List.append_assoc, List.singleton_append]

theorem dedupFirst_eq_self (D : List Source) :
    ∀ seen : List Source, D.Nodup → (∀ x ∈ D, x ∉ seen) →
      dedupFirst seen D = D := by
  induction D with
  | nil => intro seen _ _; rfl
  | cons a D ih =>
      intro seen hD hDs
      have ha : a ∉ seen := hDs a (List.mem_cons_self a D)
      rw [dedupFirst, if_neg ha]
      congr 1
      refine ih (a :: seen) (List.nodup_cons.mp hD).2 ?_
      intro x hx
      rw [List.mem_cons]
      rintro (rfl | hxs)
      · exact (List.nodup_cons.mp hD).1 hx
      · exact hDs x (List.mem_cons_of_mem a hx) hxs

theorem dedupFirst_append_one (P : List Source) :
    ∀ (seen : List Source) (s : Source),
      dedupFirst seen (P ++ [s]) =
        dedupFirst seen P ++ (if s ∈ seen ∨ s ∈ P then [] else [s]) := by
  induction P with
  | nil =>
      intro seen s
      by_cases hs : s ∈ seen
      · simp [dedupFirst, hs]
      · simp [dedupFirst, hs]
  | cons a P ih =>
      intro seen s
      rw [List.cons_append, dedupFirst, dedupFirst]
      by_cases ha : a ∈ seen
      · rw [if_pos ha, if_pos ha, ih seen s]
        have hcond : (s ∈ seen ∨ s ∈ P) ↔ (s ∈ seen ∨ s ∈ a :: P) := by
          simp only [List.mem_cons]
          constructor
          · rintro (h | h)
            · exact Or.inl h
            · exact Or.inr (Or.inr h)
          · rintro (h | rfl | h)
            · exact Or.inl h
            · exact Or.inl ha
            · exact Or.inr h
        by_cases hc : s ∈ seen ∨ s ∈ P
        · rw [if_pos hc, if_pos (hcond.mp hc)]
        · rw [if_neg hc, if_neg (fun hh => hc (hcond.mpr hh))]
      · rw [if_neg ha, if_neg ha, ih (a :: seen) s, List.cons_append]
        have hcond : (s ∈ a :: seen ∨ s ∈ P) ↔ (s ∈ seen ∨ s ∈ a :: P) := by
          simp only [List.mem_cons]
          tauto
        by_cases hc : s ∈ a :: seen ∨ s ∈ P
        · rw [if_pos hc, if_pos (hcond.mp hc)]
        · rw [if_neg hc, if_neg (fun hh => hc (hcond.mpr hh))]

theorem curate_step_dedup (P : List Source) (c : Chunk) :
    curateStep (dedupFirst [] P) c = dedupFirst [] (P ++ [chunkToSource c]) := by
  rw [curateStep, dedupFirst_append_one (dedupFirst [] P) [] (chunkToSource c),
      dedupFirst_append_one P [] (chunkToSource c),
      dedupFirst_eq_self (dedupFirst [] P) [] (dedupFirst_nodup P []) (by simp)]
  by_cases hp : chunkToSource c ∈ P
  · rw [if_pos (Or.inr ((mem_dedupFirst (chunkToSource c) P []).mpr
        ⟨hp, by simp⟩)), if_pos (Or.inr hp)]
  · have h1 : ¬(chunkToSource c ∈ ([] : List Source) ∨
        chunkToSource c ∈ dedupFirst [] P) := by
      rintro (h | h)
      · simp at h
      · exact hp ((mem_dedupFirst (chunkToSource c) P []).mp h).1
    have h2 : ¬(chunkToSource c ∈ ([] : List Source) ∨ chunkToSource c ∈ P) := by
      rintro (h | h)
      · simp at h
      · exact hp h
    rw [if_neg h1, if_neg h2]

theorem curate_fold_eq (cs : List Chunk) :
    ∀ P : List Source,
      cs.foldl curateStep (dedupFirst [] P) =
        dedupFirst [] (P ++ cs.map chunkToSource) := by
  induction cs with
  | nil => intro P; simp
  | cons c cs ih =>
      intro P
      rw [List.foldl_cons, curate_step_dedup P c, ih (P ++ [chunkToSource c]),
          List.append_assoc, List.singleton_append, List.map_cons]

theorem curate_sources_eq_dedupFirst (cs : List Chunk) :
    curate_sources cs = dedupFirst [] (cs.map chunkToSource) := by
  have h := curate_fold_eq cs []
  rw [show dedupFirst [] ([] : List Source) = [] from rfl,
      List.nil_append] at h
  exact h

/-- C2 (amended): `curate_sources` collapses any two passages with equal
(file, page, TEXT) triple into a single entry — the dedup key is the whole
frozen `Source`, not just (file, page) — and its output is exactly the
single first-occurrence deduplication of the per-chunk projection: it keeps
the first occurrence of each distinct (file, page, text) triple in
first-occurrence order, so it is duplicate-free, a sublist of the
projection with the same members, and its length equals the number of
distinct triples. -/
theorem claim_c2_dedup_stability (cs : List Chunk) :
    curate_sources cs = dedupFirst [] (cs.map chunkToSource) ∧
    (curate_sources cs).Nodup ∧
    List.Sublist (curate_sources cs) (cs.map chunkToSource) ∧
    (∀ s : Source, s ∈ curate_sources cs ↔ s ∈ cs.map chunkToSource) ∧
    (curate_sources cs).length = (cs.map chunkToSource).dedup.length := by
  obtain ⟨h1, h2, h3⟩ := curate_fold_inv cs [] (by simp)
  have hmem : ∀ s : Source, s ∈ curate_sources cs ↔ s ∈ cs.map chunkToSource := by
    intro s
    rw [curate_sources, h2]
    simp
  refine ⟨curate_sources_eq_dedupFirst cs, h1, by simpa using h3, hmem, ?_⟩
  have hfin : (curate_sources cs).toFinset = (cs.map chunkToSource).toFinset := by
    ext s
    simp only [List.mem_toFinset]
    exact hmem s
  calc (curate_sources cs).length
      = (curate_sources cs).toFinset.card :=
        ( List.toFinset_card_of_nodup h1).symm
    _ = (cs.map chunkToSource).toFinset.card := by rw [hfin]
    _ = (cs.map chunkToSource).dedup.length := List.card_toFinset _

/-- Two retrieved chunks over the same document metadata (equal file and
page) but different passage texts. -/
def chunkX : Chunk :=
  ⟨⟨"id1", some [("file_name", "a.pdf"), ("page_label", "1")]⟩, "first text"⟩

/-- Second chunk with the same (file, page) as `chunkX` but another text. -/
def chunkY : Chunk :=
  ⟨⟨"id2", some [("file_name", "a.pdf"), ("page_label", "1")]⟩, "second text"⟩

/-- C2 fails on the code: two passages with equal (file, page) but
different texts do NOT collapse — the curated output has length 2 while the
number of distinct (file, page) pairs is 1. -/
theorem claim_c2_counterexample :
    (([chunkX, chunkY].map
        (fun c => ((chunkToSource c).file, (chunkToSource c).page))).dedup).length = 1 ∧
    (curate_sources [chunkX, chunkY]).length = 2 := by
  constructor
  · decide
  · decide

/-! ### Lemmas about the response streamer -/

theorem strExt_refl (a : String) : strExt a a :=
  ⟨"", (String.append_empty a).symm⟩

theorem strExt_append (a t : String) : strExt a (a ++ t) := ⟨t, rfl⟩

theorem fullFrom_ext (ds : List Delta) :
    ∀ acc : String, strExt acc (fullFrom acc ds) := by
  induction ds with
  | nil => intro acc; exact strExt_refl acc
  | cons d rest ih =>
      intro acc
      rw [fullFrom]
      obtain ⟨t, ht⟩ := ih (acc ++ deltaText d)
      exact ⟨deltaText d ++ t, by rw [ht, String.append_assoc]⟩

theorem streamSnapshots_head_ext (ds : List Delta) (acc : String) :
    ∀ b ∈ (streamSnapshots acc ds).head?, strExt acc b := by
  cases ds with
  | nil => intro b hb; simp [streamSnapshots] at hb
  | cons d rest =>
      intro b hb
      simp only [streamSnapshots, List.head?_cons, Option.mem_def,
        Option.some.injEq] at hb
      rw [← hb]
      exact strExt_append acc (deltaText d)

theorem streamSnapshots_chain (ds : List Delta) :
    ∀ acc : String, List.Chain' strExt (streamSnapshots acc ds) := by
  induction ds with
  | nil => intro acc; simp [streamSnapshots]
  | cons d rest ih =>
      intro acc
      rw [streamSnapshots, List.chain'_cons']
      exact ⟨streamSnapshots_head_ext rest (acc ++ deltaText d),
             ih (acc ++ deltaText d)⟩

theorem mem_streamSnapshots_ext (ds : List Delta) :
    ∀ acc : String, ∀ s ∈ streamSnapshots acc ds, strExt s (fullFrom acc ds) := by
  induction ds with
  | nil => intro acc s hs; simp [streamSnapshots] at hs
  | cons d rest ih =>
      intro acc s hs
      rw [streamSnapshots] at hs
      rw [fullFrom]
      rcases List.mem_cons.mp hs with rfl | hs2
      · exact fullFrom_ext rest (acc ++ deltaText d)
      · exact ih (acc ++ deltaText d) s hs2

theorem streamSnapshots_getLast (ds : List Delta) :
    ∀ acc : String, ds ≠ [] →
      (streamSnapshots acc ds).getLast? = some (fullFrom acc ds) := by
  induction ds with
  | nil => intro acc h; exact absurd rfl h
  | cons d rest ih =>
      intro acc _
      rw [streamSnapshots, fullFrom]
      cases rest with
      | nil => simp [streamSnapshots, fullFrom]
      | cons d2 r2 =>
          have hne : streamSnapshots (acc ++ deltaText d) (d2 :: r2) ≠ [] := by
            rw [streamSnapshots]
            exact List.cons_ne_nil _ _
          have hcons : (acc ++ deltaText d) :: streamSnapshots (acc ++ deltaText d) (d2 :: r2)
              = [acc ++ deltaText d] ++ streamSnapshots (acc ++ deltaText d) (d2 :: r2) := by
            simp
          rw [hcons, List.getLast?_append_of_ne_nil _ hne]
          exact ih (acc ++ deltaText d) (List.cons_ne_nil d2 r2)

/-- C4: the sequence of snapshots emitted by `yield_deltas` is monotone:
each snapshot is a prefix-extension of (or equal to) the previous one;
every non-final snapshot is a prefix of the pure streamed text (no citation
block yet); and the final snapshot extends the streamed text by a suffix
that is appended at most once — empty, or the separator marker followed by
the citation block. -/
theorem claim_c4_streaming_monotone (g : CompletionGen) :
    List.Chain' strExt (yield_deltas g) ∧
    (∀ s ∈ (yield_deltas g).dropLast, strExt s (fullFrom "" g.response)) ∧
    (∃ suffix : String,
      (yield_deltas g).getLast? = some (fullFrom "" g.response ++ suffix) ∧
      (suffix = "" ∨ suffix = SOURCES_SEPARATOR ++ sourcesBlockText g.sources)) := by
  refine ⟨?_, ?_, ?_⟩
  · rw [yield_deltas, List.chain'_append]
    refine ⟨streamSnapshots_chain g.response "", List.chain'_singleton _, ?_⟩
    intro x hx y hy
    simp only [List.head?_cons, Option.mem_def, Option.some.injEq] at hy
    cases hds : g.response with
    | nil =>
        rw [hds] at hx
        simp [streamSnapshots] at hx
    | cons d rest =>
        rw [hds, streamSnapshots_getLast (d :: rest) "" (List.cons_ne_nil d rest)]
          at hx
        simp only [Option.mem_def, Option.some.injEq] at hx
        subst hx
        rw [← hy, hds, finalResponse]
        by_cases hemp : g.sources.isEmpty
        · rw [if_pos hemp]
          exact strExt_refl _
        · rw [if_neg hemp, String.append_assoc]
          exact strExt_append _ _
  · intro s hs
    rw [yield_deltas, List.dropLast_concat] at hs
    exact mem_streamSnapshots_ext g.response "" s hs
  · rw [yield_deltas, List.getLast?_concat, finalResponse]
    by_cases hemp : g.sources.isEmpty
    · rw [if_pos hemp]
      exact ⟨"", by rw [String.append_empty], Or.inl rfl⟩
    · rw [if_neg hemp]
      exact ⟨SOURCES_SEPARATOR ++ sourcesBlockText g.sources,
             by rw [String.append_assoc], Or.inr rfl⟩

/-- A concrete completion stream for the C4 witness: one plain-string delta
and one structured delta, no sources. -/
def c4Gen : CompletionGen :=
  ⟨[Delta.str "He", Delta.chatResponse (some "llo")], []⟩

/-- Witness for C4 at a concrete completion stream. -/
theorem claim_c4_streaming_monotone_witness :
    List.Chain' strExt (yield_deltas c4Gen) :=
  (claim_c4_streaming_monotone c4Gen).1

/-! ### Lemmas about the selected-document resolution loop -/

theorem resolve_foldl_error (docs : List IngestedDocument) (sel : String)
    (e : String) : docs.foldl (resolveStep sel) (.error e) = .error e := by
  induction docs with
  | nil => rfl
  | cons d docs ih =>
      rw [List.foldl_cons]
      have hstep : resolveStep sel (.error e) d = .error e := rfl
      rw [hstep, ih]

theorem resolve_ok_of_nomatch (docs : List IngestedDocument) (sel : String)
    (h : ∀ d ∈ docs, ∃ fn, docFileName d = .ok fn ∧ fn ≠ sel) :
    ∀ ids : List String, docs.foldl (resolveStep sel) (.ok ids) = .ok ids := by
  induction docs with
  | nil => intro ids; rfl
  | cons d docs ih =>
      intro ids
      obtain ⟨fn, hfn, hne⟩ := h d (List.mem_cons_self d docs)
      rw [List.foldl_cons]
      have hbe : (fn == sel) = false := beq_eq_false_iff_ne.mpr hne
      have hstep : resolveStep sel (.ok ids) d = .ok ids := by
        unfold resolveStep
        rw [hfn]
        show Except.ok (if (fn == sel) = true then ids ++ [d.doc_id] else ids) =
          Except.ok ids
        rw [hbe]
        rfl
      rw [hstep]
      exact ih (fun d2 hd2 => h d2 (List.mem_cons_of_mem d hd2)) ids

theorem resolve_error_aux (docs : List IngestedDocument) (sel : String)
    (d : IngestedDocument) (e0 : String) (he0 : docFileName d = .error e0) :
    ∀ acc : Except String (List String), d ∈ docs →
      ∃ e : String, docs.foldl (resolveStep sel) acc = .error e := by
  induction docs with
  | nil => intro acc hd; simp at hd
  | cons d1 docs ih =>
      intro acc hd
      rw [List.foldl_cons]
      rcases List.mem_cons.mp hd with rfl | hmem
      · cases acc with
        | error e =>
            exact ⟨e, by rw [show resolveStep sel (.error e) d = .error e from rfl,
              resolve_foldl_error]⟩
        | ok ids =>
            have hstep : resolveStep sel (.ok ids) d = .error e0 := by
              unfold resolveStep
              rw [he0]
              rfl
            rw [hstep]
            exact ⟨e0, resolve_foldl_error docs sel e0⟩
      · exact ih (resolveStep sel acc d1) hmem

theorem resolveDocsIds_error (docs : List IngestedDocument) (sel : String)
    (d : IngestedDocument) (e0 : String) (hd : d ∈ docs)
    (he0 : docFileName d = .error e0) :
    ∃ e : String, resolveDocsIds docs sel = .error e := by
  rw [resolveDocsIds]
  exact resolve_error_aux docs sel d e0 he0 (.ok []) hd

/-! ### Claims about the mode dispatcher -/

/-- C6: in `"Query Files"` mode, when a document is selected whose display
name matches no ingested document's file name, chat invokes generation with
a `ContextFilter` over an EMPTY identifier set (retrieval restricted to
nothing), not with the unrestricted no-filter call; the no-filter call
happens exactly when no document is selected. -/
theorem claim_c6_empty_filter (st : SessionState) (env : ChatEnv)
    (msg : String) (hist : List (String × String)) (sel : String)
    (hsel : st.selected_filename = some sel)
    (hnom : ∀ d ∈ env.ingestedDocs, ∃ fn, docFileName d = .ok fn ∧ fn ≠ sel) :
    (chatStep st env msg hist "Query Files").1 =
      .ok (yield_deltas env.queryGen,
           [CollaboratorCall.listIngested,
            CollaboratorCall.streamChat (compactAll st.system_prompt hist msg)
              true (some ⟨[]⟩)]) ∧
    (chatStep { st with selected_filename := none } env msg hist "Query Files").1 =
      .ok (yield_deltas env.queryGen,
           [CollaboratorCall.streamChat (compactAll st.system_prompt hist msg)
              true none]) := by
  have hres : resolveDocsIds env.ingestedDocs sel = .ok [] := by
    rw [resolveDocsIds]
    exact resolve_ok_of_nomatch env.ingestedDocs sel hnom []
  constructor
  · show chatResult st env msg hist "Query Files" = _
    simp only [chatResult, hsel, hres, if_pos]
  · rfl

/-- Session state for the C6 witness: a selected file name matching nothing. -/
def c6State : SessionState := ⟨"Query Files", "", some "ghost.pdf"⟩

/-- Collaborator behaviour for the C6 witness: one ingested document with a
different file name. -/
def c6Env : ChatEnv :=
  ⟨[⟨"doc1", some [("file_name", "real.pdf")]⟩], ⟨[], []⟩, ⟨[], []⟩, []⟩

/-- Witness for C6 at a concrete state and environment. -/
theorem claim_c6_empty_filter_witness :
    c6State.selected_filename = some "ghost.pdf" ∧
    (chatStep c6State c6Env "m" [] "Query Files").1 =
      .ok (yield_deltas c6Env.queryGen,
           [CollaboratorCall.listIngested,
            CollaboratorCall.streamChat (compactAll c6State.system_prompt [] "m")
              true (some ⟨[]⟩)]) := by
  refine ⟨rfl, ?_⟩
  refine (claim_c6_empty_filter c6State c6Env "m" [] "ghost.pdf" rfl ?_).1
  intro d hd
  simp only [c6Env] at hd
  rw [List.mem_singleton] at hd
  subst hd
  exact ⟨"real.pdf", rfl, by decide⟩

/-- C7: invoking chat with a mode tag outside the closed set of three known
tags yields an empty snapshot sequence, an empty collaborator call trace,
no error, and an unchanged session state. -/
theorem claim_c7_unknown_mode (st : SessionState) (env : ChatEnv)
    (msg : String) (hist : List (String × String)) (mode : String)
    (h1 : mode ≠ "Query Files")
    (h2 : mode ≠ "LLM Chat (no context from files)")
    (h3 : mode ≠ "Search Files") :
    chatStep st env msg hist mode = (.ok ([], []), st) := by
  show (chatResult st env msg hist mode, st) = _
  simp only [chatResult, if_neg h1, if_neg h2, if_neg h3]

/-- Collaborator behaviour for the C7 witness. -/
def c7Env : ChatEnv := ⟨[], ⟨[], []⟩, ⟨[], []⟩, []⟩

/-- Witness for C7 at the unknown mode tag `"Chat"`. -/
theorem claim_c7_unknown_mode_witness :
    ("Chat" ≠ "Query Files") ∧
    ("Chat" ≠ "LLM Chat (no context from files)") ∧
    ("Chat" ≠ "Search Files") ∧
    chatStep ⟨"Query Files", "", none⟩ c7Env "m" [] "Chat" =
      (.ok ([], []), ⟨"Query Files", "", none⟩) :=
  ⟨by decide, by decide, by decide,
   claim_c7_unknown_mode ⟨"Query Files", "", none⟩ c7Env "m" [] "Chat"
     (by decide) (by decide) (by decide)⟩

/-- C8: mode isolation — in `"LLM Chat (no context from files)"` mode the
retrieval collaborator is never called: the only collaborator call is
generation with context-augmentation disabled and no scope filter. -/
theorem claim_c8_mode_isolation (st : SessionState) (env : ChatEnv)
    (msg : String) (hist : List (String × String)) :
    (chatStep st env msg hist "LLM Chat (no context from files)").1 =
      .ok (yield_deltas env.llmGen,
           [CollaboratorCall.streamChat (compactAll st.system_prompt hist msg)
              false none]) ∧
    (callsOf (chatStep st env msg hist "LLM Chat (no context from files)").1).all
      (fun c => !isRetrieveCall c) = true := by
  constructor
  · rfl
  · rfl

/-- C9: in `"Query Files"` mode with a document selected, the resolution
loop subscripts `doc_metadata["file_name"]` without a `None` or missing-key
guard, so an ingested document with absent metadata (or metadata lacking
`"file_name"`) makes the chat invocation raise instead of skipping that
document. -/
theorem claim_c9_metadata_exception (st : SessionState) (env : ChatEnv)
    (msg : String) (hist : List (String × String)) (sel : String)
    (d : IngestedDocument)
    (hsel : st.selected_filename = some sel)
    (hd : d ∈ env.ingestedDocs)
    (hbad : d.doc_metadata = none ∨
      ∃ md, d.doc_metadata = some md ∧ dictFind md "file_name" = none) :
    ∃ e : String, (chatStep st env msg hist "Query Files").1 = .error e := by
  have herr : ∃ e0 : String, docFileName d = .error e0 := by
    rcases hbad with hnone | ⟨md, hmd, hfind⟩
    · exact ⟨"TypeError: NoneType object is not subscriptable",
        by simp [docFileName, hnone]⟩
    · exact ⟨"KeyError: file_name", by simp [docFileName, hmd, hfind]⟩
  obtain ⟨e0, he0⟩ := herr
  obtain ⟨e, he⟩ := resolveDocsIds_error env.ingestedDocs sel d e0 hd he0
  refine ⟨e, ?_⟩
  show chatResult st env msg hist "Query Files" = .error e
  simp only [chatResult, hsel, he, if_pos]

/-- Session state for the C9 witness. -/
def c9State : SessionState := ⟨"Query Files", "", some "a.pdf"⟩

/-- Collaborator behaviour for the C9 witness: one ingested document whose
metadata is absent. -/
def c9Env : ChatEnv := ⟨[⟨"doc1", none⟩], ⟨[], []⟩, ⟨[], []⟩, []⟩

/-- Witness for C9 at a concrete state and environment. -/
theorem claim_c9_metadata_exception_witness :
    c9State.selected_filename = some "a.pdf" ∧
    (⟨"doc1", none⟩ : IngestedDocument) ∈ c9Env.ingestedDocs ∧
    ∃ e : String, (chatStep c9State c9Env "m" [] "Query Files").1 = .error e :=
  ⟨rfl, List.mem_singleton.mpr rfl,
   claim_c9_metadata_exception c9State c9Env "m" [] "a.pdf" ⟨"doc1", none⟩
     rfl (List.mem_singleton.mpr rfl) (Or.inl rfl)⟩

/-- C10: every chat invocation leaves the session state unchanged — `_chat`
only reads the mode, system prompt and selected file name, so all three
fields have the same values after the invocation as before it. -/
theorem claim_c10_frame (st : SessionState) (env : ChatEnv) (msg : String)
    (hist : List (String × String)) (mode : String) :
    (chatStep st env msg hist mode).2.mode = st.mode ∧
    (chatStep st env msg hist mode).2.system_prompt = st.system_prompt ∧
    (chatStep st env msg hist mode).2.selected_filename = st.selected_filename :=
  ⟨rfl, rfl, rfl⟩

end PrivateGpt
